import Mathlib

/-!
Shallow embedding of the caffeinated-coffee inventory/order application
(`src/streamlit_app.py`) and proofs of the specified properties.

The relational store is modelled as lists of rows in rowid (insertion)
order, with explicit autoincrement counters for the three generated
primary keys.  Monetary values (`price_per_gram`, `total_price`, `price`)
are modelled as rationals; quantities and stock are `Int` (the `Integer`
columns can in principle hold negative values, which is what the
non-negativity invariant is about).

SQLAlchemy specifics that the embedding reproduces:
  * `session.query(T).filter_by(c=v).first()` on an un-ordered query is a
    table scan returning the first row in rowid order: `List.find?`.
  * `session.delete(bean)` for a `CoffeeBean`: no relationship from
    `CoffeeBean` to `OrderItem` is configured, and SQLite foreign keys are
    not enforced, so only the bean row is deleted and `OrderItems` rows
    keep their (now dangling) `bean_id`.
  * `session.delete(order)` for an `Order`: the `Order.items` relationship
    has the default cascade (no `delete`), so SQLAlchemy de-associates the
    dependent `OrderItem` rows by setting their `order_id` to NULL before
    deleting the order row; the item rows themselves survive.
-/

namespace Caffeinated

/-- A calendar date (`order_date` column); only year/month matter for the
monthly report. -/
structure OrderDate where
  year : Int
  month : Nat
  day : Nat
deriving DecidableEq, Repr

/-- Row of the `Users` table. -/
structure User where
  user_id : Nat
  name : String
  email : String
deriving DecidableEq, Repr

/-- Row of the `CoffeeBeans` table. -/
structure CoffeeBean where
  bean_id : Nat
  name : String
  origin : String
  roast_level : String
  price_per_gram : ℚ
  stock_quantity : Int
deriving DecidableEq, Repr

/-- Row of the `Orders` table. -/
structure Order where
  order_id : Nat
  user_id : Nat
  total_price : ℚ
  order_date : OrderDate
  status : String
deriving DecidableEq, Repr

/-- Row of the `OrderItems` table.  `order_id` is nullable: SQLAlchemy
sets it to NULL when the owning order is deleted. -/
structure OrderItem where
  item_id : Nat
  order_id : Option Nat
  bean_id : Nat
  quantity : Int
  price : ℚ
deriving DecidableEq, Repr

/-- The database: the four tables in rowid order plus the autoincrement
counters for the generated primary keys. -/
structure DBState where
  users : List User
  beans : List CoffeeBean
  orders : List Order
  order_items : List OrderItem
  next_bean_id : Nat
  next_order_id : Nat
  next_item_id : Nat
deriving DecidableEq, Repr

/-- The error kinds of the service layer (§7 of the design). -/
inductive ServiceError where
  | ValidationError
  | NotFoundError
  | OutOfStockError
deriving DecidableEq, Repr

/-- Replace the first element satisfying `p` by its image under `f`
(an ORM mutation of the row returned by `.first()`). -/
def update_first (p : α → Bool) (f : α → α) : List α → List α
  | [] => []
  | x :: xs => if p x then f x :: xs else x :: update_first p f xs

/-- Remove the first element satisfying `p` (a `session.delete` of the row
returned by `.first()`). -/
def erase_first (p : α → Bool) : List α → List α
  | [] => []
  | x :: xs => if p x then xs else x :: erase_first p xs

/-- Operation `ensure_user_exists`: create the singleton default user if absent. -/
def ensure_user_exists (s : DBState) : DBState :=
  match s.users.find? (fun u => u.user_id == 1) with
  | some _ => s
  | none =>
      { s with users := s.users ++ [⟨1, "Default User", "user@example.com"⟩] }

/-- Operation `add_coffee_bean`: insert a new bean row.  The UI widgets enforce
`price_per_gram ≥ 0.01` and `stock_quantity ≥ 1`; those bounds appear as
hypotheses of the theorems that need them. -/
def add_coffee_bean (s : DBState) (name origin roast_level : String)
    (price_per_gram : ℚ) (stock_quantity : Int) : DBState :=
  { s with
    beans := s.beans ++
      [⟨s.next_bean_id, name, origin, roast_level, price_per_gram, stock_quantity⟩],
    next_bean_id := s.next_bean_id + 1 }

/-- Operation `update_coffee_bean`: overwrite the fields of the first bean whose
name matches the selection (the widgets enforce `new_price ≥ 0.01` and
`new_stock ≥ 0`).  If no bean matches, nothing is written. -/
def update_coffee_bean (s : DBState) (selName newName newOrigin newRoast : String)
    (newPrice : ℚ) (newStock : Int) : DBState :=
  match s.beans.find? (fun b => b.name == selName) with
  | none => s
  | some _ =>
      { s with
        beans := update_first (fun b => b.name == selName)
          (fun b => { b with
            name := newName, origin := newOrigin, roast_level := newRoast,
            price_per_gram := newPrice, stock_quantity := newStock }) s.beans }

/-- Operation `delete_coffee_bean`: delete the first bean whose name matches the
selection.  No cascade is configured from `CoffeeBean` to `OrderItem` and
SQLite does not enforce the foreign key, so the `OrderItems` table is
untouched.  If no bean matches, `session.delete(None)` raises and the
transaction is rolled back, leaving the state unchanged. -/
def delete_coffee_bean (s : DBState) (selName : String) : DBState :=
  match s.beans.find? (fun b => b.name == selName) with
  | none => s
  | some _ =>
      { s with beans := erase_first (fun b => b.name == selName) s.beans }

/-- Operation `place_order`: resolve the selected bean by name, guard on stock
(`stock_quantity > 0` gates the form; `stock_quantity < quantity` is
re-checked inside the transaction), then atomically decrement the stock
and insert the Order and its OrderItem.  Error paths perform none of the
three writes.  The bean-missing path surfaces no order (mapped to
`NotFoundError`). -/
def place_order (s0 : DBState) (selName : String) (quantity : Int)
    (today : OrderDate) : DBState × Option ServiceError :=
  let s := ensure_user_exists s0
  match s.beans.find? (fun b => b.name == selName) with
  | none => (s, some ServiceError.NotFoundError)
  | some selected_bean =>
      if selected_bean.stock_quantity ≤ 0 then
        (s, some ServiceError.OutOfStockError)
      else
        let total_price := selected_bean.price_per_gram * (quantity : ℚ)
        if selected_bean.stock_quantity < quantity then
          (s, some ServiceError.OutOfStockError)
        else
          ({ s with
              beans := update_first (fun b => b.name == selName)
                (fun b => { b with stock_quantity := b.stock_quantity - quantity })
                s.beans,
              orders := s.orders ++
                [⟨s.next_order_id, 1, total_price, today, "Pending"⟩],
              order_items := s.order_items ++
                [⟨s.next_item_id, some s.next_order_id, selected_bean.bean_id,
                  quantity, total_price⟩],
              next_order_id := s.next_order_id + 1,
              next_item_id := s.next_item_id + 1 }, none)

/-- Operation `delete_order`: delete the order row with the selected id.  The
`Order.items` relationship has no delete cascade, so SQLAlchemy first
nullifies the `order_id` of every dependent `OrderItem`; the item rows
survive.  If the id resolves to no order, the raised error is rolled
back and the state is unchanged. -/
def delete_order (s : DBState) (oid : Nat) : DBState :=
  match s.orders.find? (fun o => o.order_id == oid) with
  | none => s
  | some _ =>
      { s with
        orders := erase_first (fun o => o.order_id == oid) s.orders,
        order_items := s.order_items.map (fun it =>
          if it.order_id == some oid then { it with order_id := none } else it) }

/-- Operation `reset_all_data`: drop and recreate the whole schema, then re-ensure
the default user. -/
def reset_all_data (_s : DBState) : DBState :=
  ensure_user_exists ⟨[], [], [], [], 1, 1, 1⟩

/-- The five demo beans of `load_demo_data_and_orders`. -/
def demo_beans : List (String × String × String × ℚ × Int) :=
  [("Arabica", "Brazil", "Medium", 5/100, 1000),
   ("Robusta", "Vietnam", "Dark", 3/100, 500),
   ("Blue Mountain", "Jamaica", "Light", 10/100, 200),
   ("Ethiopian Yirgacheffe", "Ethiopia", "Medium", 8/100, 300),
   ("Colombian Supremo", "Colombia", "Dark", 7/100, 800)]

/-- One iteration of the demo-order loop: re-query the bean by id,
compute the total, insert the Order and OrderItem, decrement the stock.
`none` models the exception path (bean id unresolvable). -/
def demo_order_step (today : OrderDate) (s : DBState)
    (od : Nat × Int × String) : Option DBState :=
  match s.beans.find? (fun b => b.bean_id == od.1) with
  | none => none
  | some bean =>
      let total_price := bean.price_per_gram * (od.2.1 : ℚ)
      some { s with
        orders := s.orders ++
          [⟨s.next_order_id, 1, total_price, today, od.2.2⟩],
        order_items := s.order_items ++
          [⟨s.next_item_id, some s.next_order_id, bean.bean_id, od.2.1, total_price⟩],
        beans := update_first (fun b => b.bean_id == od.1)
          (fun b => { b with stock_quantity := b.stock_quantity - od.2.1 }) s.beans,
        next_order_id := s.next_order_id + 1,
        next_item_id := s.next_item_id + 1 }

/-- Operation `load_demo_data_and_orders`: ensure the default user, insert the five
demo beans, then place the five demo orders against the first five beans
of the table (indices into the full bean list, as in the source).  Any
exception rolls the whole transaction back to the initial state. -/
def load_demo_data_and_orders (s0 : DBState) (today : OrderDate) : DBState :=
  let s1 := ensure_user_exists s0
  let s2 := demo_beans.foldl
    (fun s b => add_coffee_bean s b.1 b.2.1 b.2.2.1 b.2.2.2.1 b.2.2.2.2) s1
  match s2.beans[0]?, s2.beans[1]?, s2.beans[2]?, s2.beans[3]?, s2.beans[4]? with
  | some b0, some b1, some b2, some b3, some b4 =>
      let demo_orders : List (Nat × Int × String) :=
        [(b0.bean_id, 50, "Pending"), (b1.bean_id, 100, "Shipped"),
         (b2.bean_id, 25, "Delivered"), (b3.bean_id, 10, "Pending"),
         (b4.bean_id, 75, "Shipped")]
      match demo_orders.foldlM (demo_order_step today) s2 with
      | some s3 => s3
      | none => s0
  | _, _, _, _, _ => s0

/-- The (year, month) grouping key of the monthly report. -/
def monthOf (d : OrderDate) : Int × Nat := (d.year, d.month)

/-- Month-descending comparison used to order the monthly report. -/
def monthGE (a b : Int × Nat) : Prop :=
  b.1 < a.1 ∨ (a.1 = b.1 ∧ b.2 ≤ a.2)

instance : DecidableRel monthGE := fun a b => by
  unfold monthGE; infer_instance

/-- Modelled from the spec: `monthlySales()` is absent from
`src/streamlit_app.py` (the repository's reporting variant is not under
`src/`); per §4.3 it groups Orders by calendar month of `order_date` and
returns `(month, order_count, total_revenue)` ordered by month
descending.  It is a read-only query: it takes the order table and
mutates nothing. -/
def monthlySales (orders : List Order) : List ((Int × Nat) × Nat × ℚ) :=
  let months := (orders.map (fun o => monthOf o.order_date)).dedup
  (months.insertionSort monthGE).map (fun m =>
    let group := orders.filter (fun o => monthOf o.order_date == m)
    (m, group.length, (group.map (fun o => o.total_price)).sum))

/-! ### Helper lemmas on `update_first`, `erase_first` and `find?` -/

/-- Decompose a list at the first `p`-match: `update_first` rewrites
exactly that position. -/
theorem update_first_decomp {p : α → Bool} (f : α → α) {l : List α} {b : α}
    (h : l.find? p = some b) :
    ∃ l1 l2, l = l1 ++ b :: l2 ∧ (∀ x ∈ l1, p x = false) ∧
      update_first p f l = l1 ++ f b :: l2 := by
  induction l with
  | nil => simp at h
  | cons x xs ih =>
    cases hx : p x with
    | true =>
      rw [List.find?_cons_of_pos _ hx] at h
      cases h
      exact ⟨[], xs, by simp, by simp, by simp [update_first, hx]⟩
    | false =>
      rw [List.find?_cons_of_neg _ (by simp [hx])] at h
      obtain ⟨l1, l2, hl, hl1, hu⟩ := ih h
      exact ⟨x :: l1, l2, by simp [hl], by simpa [hx] using hl1,
        by simp [update_first, hx, hu]⟩

/-- Decompose a list at the first `p`-match: `erase_first` removes
exactly that position. -/
theorem erase_first_decomp {p : α → Bool} {l : List α} {b : α}
    (h : l.find? p = some b) :
    ∃ l1 l2, l = l1 ++ b :: l2 ∧ (∀ x ∈ l1, p x = false) ∧
      erase_first p l = l1 ++ l2 := by
  induction l with
  | nil => simp at h
  | cons x xs ih =>
    cases hx : p x with
    | true =>
      rw [List.find?_cons_of_pos _ hx] at h
      cases h
      exact ⟨[], xs, by simp, by simp, by simp [erase_first, hx]⟩
    | false =>
      rw [List.find?_cons_of_neg _ (by simp [hx])] at h
      obtain ⟨l1, l2, hl, hl1, hu⟩ := ih h
      exact ⟨x :: l1, l2, by simp [hl], by simpa [hx] using hl1,
        by simp [erase_first, hx, hu]⟩

/-- When no element matches, `erase_first` is the identity. -/
theorem erase_first_of_find?_none {p : α → Bool} {l : List α}
    (h : l.find? p = none) : erase_first p l = l := by
  induction l with
  | nil => rfl
  | cons x xs ih =>
    rw [List.find?_eq_none] at h
    have hx : p x = false := by
      simpa using h x (by simp)
    have ht : xs.find? p = none :=
      List.find?_eq_none.mpr (fun a ha => h a (by simp [ha]))
    simp [erase_first, hx, ih ht]

/-- Lemma: `find?` skips a prefix on which the predicate is false. -/
theorem find?_append_of_false {p : α → Bool} {l1 : List α} (l2 : List α)
    (h : ∀ x ∈ l1, p x = false) :
    (l1 ++ l2).find? p = l2.find? p := by
  induction l1 with
  | nil => rfl
  | cons x xs ih =>
    have hx : p x = false := h x (by simp)
    simp only [List.cons_append]
    rw [List.find?_cons_of_neg _ (by simp [hx])]
    exact ih (fun a ha => h a (by simp [ha]))

/-- The first `p`-match of the updated list is the image of the old one,
provided the update preserves `p` there. -/
theorem find?_update_first {p : α → Bool} {f : α → α} {l : List α} {b : α}
    (h : l.find? p = some b) (hf : p (f b) = true) :
    (update_first p f l).find? p = some (f b) := by
  obtain ⟨l1, l2, _, hl1, hu⟩ := update_first_decomp f h
  rw [hu, find?_append_of_false _ hl1, List.find?_cons_of_pos _ hf]

/-- Elements other than the first `p`-match survive `update_first`. -/
theorem mem_update_first_of_ne {p : α → Bool} {f : α → α} {l : List α} {b a : α}
    (h : l.find? p = some b) (ha : a ∈ l) (hne : a ≠ b) :
    a ∈ update_first p f l := by
  obtain ⟨l1, l2, hl, _, hu⟩ := update_first_decomp f h
  rw [hu]
  rw [hl] at ha
  rcases List.mem_append.mp ha with h1 | h2
  · exact List.mem_append.mpr (Or.inl h1)
  · rcases List.mem_cons.mp h2 with rfl | h3
    · exact absurd rfl hne
    · exact List.mem_append.mpr (Or.inr (List.mem_cons_of_mem _ h3))

/-- Elements other than the first `p`-match survive `erase_first`. -/
theorem mem_erase_first_of_ne {p : α → Bool} {l : List α} {b a : α}
    (h : l.find? p = some b) (ha : a ∈ l) (hne : a ≠ b) :
    a ∈ erase_first p l := by
  obtain ⟨l1, l2, hl, _, hu⟩ := erase_first_decomp h
  rw [hu]
  rw [hl] at ha
  rcases List.mem_append.mp ha with h1 | h2
  · exact List.mem_append.mpr (Or.inl h1)
  · rcases List.mem_cons.mp h2 with rfl | h3
    · exact absurd rfl hne
    · exact List.mem_append.mpr (Or.inr h3)

/-- Every element of the updated list is an old element or the image of
the first match. -/
theorem mem_update_first {p : α → Bool} {f : α → α} {l : List α} {b a : α}
    (h : l.find? p = some b) (ha : a ∈ update_first p f l) :
    a ∈ l ∨ a = f b := by
  obtain ⟨l1, l2, hl, _, hu⟩ := update_first_decomp f h
  subst hl
  rw [hu] at ha
  rcases List.mem_append.mp ha with h1 | h2
  · exact Or.inl (List.mem_append.mpr (Or.inl h1))
  · rcases List.mem_cons.mp h2 with rfl | h3
    · exact Or.inr rfl
    · exact Or.inl (List.mem_append.mpr (Or.inr (List.mem_cons_of_mem _ h3)))

/-- Lemma: `erase_first` only removes: every remaining element was present. -/
theorem mem_erase_first {p : α → Bool} {l : List α} {a : α}
    (ha : a ∈ erase_first p l) : a ∈ l := by
  induction l with
  | nil => simp [erase_first] at ha
  | cons x xs ih =>
    by_cases hx : p x = true
    · rw [erase_first, if_pos hx] at ha
      exact List.mem_cons_of_mem _ ha
    · rw [erase_first, if_neg hx] at ha
      rcases List.mem_cons.mp ha with rfl | h2
      · exact List.mem_cons_self _ _
      · exact List.mem_cons_of_mem _ (ih h2)

/-- Frame lemma: `ensure_user_exists` writes at most the `users` table. -/
theorem ensure_user_exists_frame (s : DBState) :
    (ensure_user_exists s).beans = s.beans ∧
    (ensure_user_exists s).orders = s.orders ∧
    (ensure_user_exists s).order_items = s.order_items ∧
    (ensure_user_exists s).next_bean_id = s.next_bean_id ∧
    (ensure_user_exists s).next_order_id = s.next_order_id ∧
    (ensure_user_exists s).next_item_id = s.next_item_id := by
  unfold ensure_user_exists
  cases s.users.find? (fun u => u.user_id == 1) <;> simp

/-! ### Summation lemmas for the monthly report -/

/-- Splitting a mapped sum along a Boolean predicate. -/
theorem sum_map_filter_partition (p : α → Bool) (val : α → ℚ) (l : List α) :
    ((l.filter p).map val).sum + ((l.filter (fun x => !(p x))).map val).sum
      = (l.map val).sum := by
  induction l with
  | nil => simp
  | cons x xs ih =>
    cases hx : p x <;> simp [List.filter_cons, hx] <;> linarith [ih]

/-- Summing the fibers of a key function over a covering, duplicate-free
list of keys gives the total sum. -/
theorem sum_map_fiber {κ : Type} [BEq κ] [LawfulBEq κ] (key : α → κ) (val : α → ℚ) :
    ∀ (ks : List κ) (l : List α), ks.Nodup → (∀ x ∈ l, key x ∈ ks) →
      (ks.map (fun k => ((l.filter (fun x => key x == k)).map val).sum)).sum
        = (l.map val).sum := by
  intro ks
  induction ks with
  | nil =>
    intro l _ hcov
    cases l with
    | nil => simp
    | cons x xs => exact absurd (hcov x (by simp)) (by simp)
  | cons k ks ih =>
    intro l hnd hcov
    have hknotmem : k ∉ ks := (List.nodup_cons.mp hnd).1
    set l2 := l.filter (fun x => !(key x == k)) with hl2
    have hfib : ∀ k' ∈ ks,
        ((l.filter (fun x => key x == k')).map val).sum
          = ((l2.filter (fun x => key x == k')).map val).sum := by
      intro k' hk'
      have : l2.filter (fun x => key x == k') = l.filter (fun x => key x == k') := by
        rw [hl2, List.filter_filter]
        apply List.filter_congr
        intro x _
        cases hxk' : key x == k' with
        | false => simp
        | true =>
          have hkx : key x = k' := by simpa using hxk'
          have hne : (key x == k) = false := by
            simp only [beq_eq_false_iff_ne, ne_eq, hkx]
            intro hkk
            exact hknotmem (hkk ▸ hk')
          simp [hne]
      rw [this]
    have hmapeq :
        (ks.map (fun k' => ((l.filter (fun x => key x == k')).map val).sum))
          = (ks.map (fun k' => ((l2.filter (fun x => key x == k')).map val).sum)) :=
      List.map_congr_left hfib
    have hcov2 : ∀ x ∈ l2, key x ∈ ks := by
      intro x hx
      rw [hl2, List.mem_filter] at hx
      have hmemk := hcov x hx.1
      have hne : key x ≠ k := by simpa using hx.2
      rcases List.mem_cons.mp hmemk with h | h
      · exact absurd h hne
      · exact h
    calc (((k :: ks).map
            (fun k' => ((l.filter (fun x => key x == k')).map val).sum)).sum)
        = ((l.filter (fun x => key x == k)).map val).sum +
            (ks.map (fun k' => ((l.filter (fun x => key x == k')).map val).sum)).sum := by
          simp
      _ = ((l.filter (fun x => key x == k)).map val).sum + (l2.map val).sum := by
          rw [hmapeq, ih l2 (List.nodup_cons.mp hnd).2 hcov2]
      _ = (l.map val).sum := sum_map_filter_partition _ val l

/-- The total revenue of the monthly report equals the sum of
`total_price` over all orders: the months partition the order table. -/
theorem monthlySales_total_revenue (orders : List Order) :
    ((monthlySales orders).map (fun g => g.2.2)).sum
      = (orders.map (fun o => o.total_price)).sum := by
  unfold monthlySales
  simp only [List.map_map, Function.comp_def]
  have hperm : List.Perm
      ((orders.map (fun o => monthOf o.order_date)).dedup.insertionSort monthGE)
      (orders.map (fun o => monthOf o.order_date)).dedup :=
    List.perm_insertionSort monthGE _
  rw [(hperm.map _).sum_eq]
  exact sum_map_fiber (fun o => monthOf o.order_date) (fun o => o.total_price)
    _ orders ((orders.map (fun o => monthOf o.order_date)).nodup_dedup)
    (fun x hx => List.mem_dedup.mpr (List.mem_map_of_mem _ hx))

/-! ### Concrete states for witnesses and counterexamples -/

/-- An order used in the concrete example state. -/
def exOrder : Order := ⟨1, 1, 100, ⟨2024, 1, 15⟩, "Pending"⟩

/-- A small concrete state: the default user, one bean, one order and the
item linking them (the state right after one 50 g order at 2 per gram). -/
def exState : DBState :=
  { users := [⟨1, "Default User", "user@example.com"⟩],
    beans := [⟨1, "Arabica", "Brazil", "Medium", 2, 950⟩],
    orders := [exOrder],
    order_items := [⟨1, some 1, 1, 50, 100⟩],
    next_bean_id := 2, next_order_id := 2, next_item_id := 2 }

/-! ### Claim theorems -/

/-- Claim C5: `deleteOrder` leaves the `CoffeeBeans` table — in
particular every bean's `stock_quantity` — unchanged: the stock
decremented at order time is not restored. -/
theorem delete_order_stock_unchanged (s : DBState) (oid : Nat) :
    (delete_order s oid).beans = s.beans := by
  unfold delete_order
  cases s.orders.find? (fun o => o.order_id == oid) <;> rfl

/-- Claim C7: updating a bean (in particular its `price_per_gram`)
leaves the `OrderItems` and `Orders` tables unchanged, so every existing
`OrderItem.price` and `Order.total_price` keeps the value frozen at
order time. -/
theorem update_coffee_bean_frozen_prices (s : DBState)
    (selName newName newOrigin newRoast : String) (newPrice : ℚ) (newStock : Int) :
    (update_coffee_bean s selName newName newOrigin newRoast newPrice newStock).order_items
        = s.order_items ∧
    (update_coffee_bean s selName newName newOrigin newRoast newPrice newStock).orders
        = s.orders := by
  unfold update_coffee_bean
  cases s.beans.find? (fun b => b.name == selName) <;> exact ⟨rfl, rfl⟩

/-- Claim C3, counterexample: in `exState` the single `OrderItem`
references bean 1; after deleting the bean "Arabica" (id 1) that item
still references bean 1, so the claimed cascade (no orphaned OrderItems)
is false. -/
theorem delete_coffee_bean_cascade_cex :
    (delete_coffee_bean exState "Arabica").order_items.filter
        (fun it => it.bean_id == 1) ≠ [] := by decide

/-- Claim C3 (amended): `deleteBean` deletes only the first bean with
the selected name; the `OrderItems` (and `Orders`) tables are untouched,
so items referencing the deleted bean remain as orphans. -/
theorem delete_coffee_bean_no_cascade (s : DBState) (selName : String) :
    (delete_coffee_bean s selName).beans
        = erase_first (fun b => b.name == selName) s.beans ∧
    (delete_coffee_bean s selName).order_items = s.order_items ∧
    (delete_coffee_bean s selName).orders = s.orders := by
  unfold delete_coffee_bean
  cases hf : s.beans.find? (fun b => b.name == selName) with
  | none => simp [erase_first_of_find?_none hf]
  | some b => exact ⟨rfl, rfl, rfl⟩

/-- Claim C4, counterexample: in `exState` the single `OrderItem`
references order 1; deleting order 1 is claimed to delete that item, but
the item row survives (with its order reference nullified), so the
`OrderItems` table is not emptied. -/
theorem delete_order_cascade_cex :
    (delete_order exState 1).order_items ≠ [] := by decide

/-- Claim C4 (amended): `deleteOrder` deletes the Order row and sets to
NULL the order reference of every `OrderItem` that referenced it; the
item rows are retained, and afterwards no `OrderItem` references the
deleted order. -/
theorem delete_order_nullifies_items (s : DBState) (oid : Nat) (o : Order)
    (hfind : s.orders.find? (fun x => x.order_id == oid) = some o) :
    (delete_order s oid).orders = erase_first (fun x => x.order_id == oid) s.orders ∧
    (delete_order s oid).order_items
        = s.order_items.map (fun it =>
            if it.order_id == some oid then { it with order_id := none } else it) ∧
    ∀ it ∈ (delete_order s oid).order_items, it.order_id ≠ some oid := by
  unfold delete_order
  rw [hfind]
  refine ⟨rfl, rfl, ?_⟩
  intro it hit
  simp only [List.mem_map] at hit
  obtain ⟨a, -, rfl⟩ := hit
  cases ha : a.order_id == some oid with
  | true => simp [ha]
  | false =>
    have hne : a.order_id ≠ some oid := by simpa using ha
    simp [ha, hne]

/-- Witness for `delete_order_nullifies_items` at the concrete state. -/
theorem delete_order_nullifies_items_witness :
    exState.orders.find? (fun x => x.order_id == 1) = some exOrder ∧
    ((delete_order exState 1).orders
        = erase_first (fun x => x.order_id == 1) exState.orders ∧
      (delete_order exState 1).order_items
        = exState.order_items.map (fun it =>
            if it.order_id == some 1 then { it with order_id := none } else it) ∧
      ∀ it ∈ (delete_order exState 1).order_items, it.order_id ≠ some 1) :=
  ⟨by decide, delete_order_nullifies_items exState 1 exOrder (by decide)⟩

/-- Claim C8: `ensureDefaultUser` leaves exactly one User row with id 1
(calling it once — hence, being a fixpoint, any number of times), and it
writes nothing when the user already exists.  The hypothesis is the
primary-key constraint on `user_id`. -/
theorem ensure_user_exists_idempotent (s : DBState)
    (hpk : (s.users.filter (fun u => u.user_id == 1)).length ≤ 1) :
    ((ensure_user_exists s).users.filter (fun u => u.user_id == 1)).length = 1 ∧
    ensure_user_exists (ensure_user_exists s) = ensure_user_exists s ∧
    ((s.users.find? (fun u => u.user_id == 1)).isSome → ensure_user_exists s = s) := by
  cases hf : s.users.find? (fun u => u.user_id == 1) with
  | some u0 =>
    have h1 : ensure_user_exists s = s := by
      unfold ensure_user_exists; rw [hf]
    have hp : (fun u => u.user_id == 1) u0 = true :=
      List.find?_some (p := fun (u : User) => u.user_id == 1) hf
    have hmem : u0 ∈ s.users.filter (fun u => u.user_id == 1) :=
      List.mem_filter.mpr ⟨List.mem_of_find?_eq_some hf, hp⟩
    have hlen : 0 < (s.users.filter (fun u => u.user_id == 1)).length :=
      List.length_pos_of_mem hmem
    refine ⟨?_, ?_, fun _ => h1⟩
    · rw [h1]; omega
    · rw [h1, h1]
  | none =>
    have hall := List.find?_eq_none.mp hf
    have h1 : ensure_user_exists s =
        { s with users := s.users ++ [⟨1, "Default User", "user@example.com"⟩] } := by
      unfold ensure_user_exists; rw [hf]
    have hfilter : s.users.filter (fun u => u.user_id == 1) = [] :=
      List.filter_eq_nil_iff.mpr hall
    have hfind2 : (s.users ++ [(⟨1, "Default User", "user@example.com"⟩ : User)]).find?
        (fun u => u.user_id == 1) = some ⟨1, "Default User", "user@example.com"⟩ := by
      rw [find?_append_of_false _ (fun x hx => Bool.eq_false_iff.mpr (hall x hx))]
      rfl
    have h2 : ensure_user_exists
        { s with users := s.users ++ [⟨1, "Default User", "user@example.com"⟩] } =
        { s with users := s.users ++ [⟨1, "Default User", "user@example.com"⟩] } := by
      unfold ensure_user_exists
      rw [hfind2]
    refine ⟨?_, ?_, ?_⟩
    · rw [h1]
      simp [List.filter_append, hfilter]
    · rw [h1, h2]
    · intro hs
      exact absurd hs (by simp [hf])

/-- Witness for `ensure_user_exists_idempotent` at the concrete state. -/
theorem ensure_user_exists_idempotent_witness :
    (exState.users.filter (fun u => u.user_id == 1)).length ≤ 1 ∧
    (((ensure_user_exists exState).users.filter (fun u => u.user_id == 1)).length = 1 ∧
      ensure_user_exists (ensure_user_exists exState) = ensure_user_exists exState ∧
      ((exState.users.find? (fun u => u.user_id == 1)).isSome →
        ensure_user_exists exState = exState)) :=
  ⟨by decide, ensure_user_exists_idempotent exState (by decide)⟩

/-- Well-formedness of the generated keys: every stored order id, and
every order id referenced by an item, is below the autoincrement
counter (what the database's primary-key generation guarantees). -/
def WF (s : DBState) : Prop :=
  (∀ o ∈ s.orders, o.order_id < s.next_order_id) ∧
  (∀ it ∈ s.order_items, ∀ oid ∈ it.order_id, oid < s.next_order_id)

/-- Claim C1: for a valid placement (`0 < q ≤ stock`) the call succeeds,
the bean's stock drops by exactly `q`, a new Order with status
"Pending" and total `price_per_gram * q` is created, and exactly one
OrderItem — with quantity `q` and price equal to that total — references
the new order (and it references the selected bean). -/
theorem place_order_success (s : DBState) (n : String) (q : Int)
    (today : OrderDate) (b : CoffeeBean)
    (hwf : WF s)
    (hfind : s.beans.find? (fun x => x.name == n) = some b)
    (hq : 0 < q) (hstock : q ≤ b.stock_quantity) :
    ∃ s', place_order s n q today = (s', none) ∧
      s'.beans.find? (fun x => x.name == n)
          = some { b with stock_quantity := b.stock_quantity - q } ∧
      (∃ o ∈ s'.orders, o ∉ s.orders ∧ o.order_id = s.next_order_id ∧
        o.status = "Pending" ∧ o.total_price = b.price_per_gram * (q : ℚ)) ∧
      s'.order_items.filter (fun it => it.order_id == some s.next_order_id)
          = [⟨s.next_item_id, some s.next_order_id, b.bean_id, q,
              b.price_per_gram * (q : ℚ)⟩] := by
  obtain ⟨hbeans, horders, hitems, hnb, hno, hni⟩ := ensure_user_exists_frame s
  have h0 : ¬ b.stock_quantity ≤ 0 := by omega
  have h1 : ¬ b.stock_quantity < q := by omega
  have hpb : (fun x => x.name == n) b = true :=
    List.find?_some (p := fun (x : CoffeeBean) => x.name == n) hfind
  unfold place_order
  simp only [hbeans, hfind, h0, if_false, h1, ite_false]
  refine ⟨_, rfl, ?_, ?_, ?_⟩
  · exact find?_update_first hfind (by simpa using hpb)
  · refine ⟨⟨s.next_order_id, 1, b.price_per_gram * (q : ℚ), today, "Pending"⟩,
      ?_, ?_, rfl, rfl, rfl⟩
    · rw [horders, hno]
      simp
    · intro hmem
      have := hwf.1 _ hmem
      simp at this
  · rw [hitems, hni, hno, List.filter_append]
    have hold : s.order_items.filter
        (fun it => it.order_id == some s.next_order_id) = [] := by
      refine List.filter_eq_nil_iff.mpr ?_
      intro it hit hbeq
      have hmem : s.next_order_id ∈ it.order_id := by
        simp only [beq_iff_eq] at hbeq
        simp [hbeq]
      have := hwf.2 it hit _ hmem
      omega
    rw [hold]
    simp

/-- Witness for `place_order_success` at the concrete state: ordering
50 g of "Arabica" from `exState`. -/
theorem place_order_success_witness :
    WF exState ∧
    exState.beans.find? (fun x => x.name == "Arabica")
        = some ⟨1, "Arabica", "Brazil", "Medium", 2, 950⟩ ∧
    (0 : Int) < 50 ∧ (50 : Int) ≤ 950 ∧
    (∃ s', place_order exState "Arabica" 50 ⟨2024, 2, 1⟩ = (s', none) ∧
      s'.beans.find? (fun x => x.name == "Arabica")
          = some { (⟨1, "Arabica", "Brazil", "Medium", 2, 950⟩ : CoffeeBean) with
                    stock_quantity := 950 - 50 } ∧
      (∃ o ∈ s'.orders, o ∉ exState.orders ∧ o.order_id = exState.next_order_id ∧
        o.status = "Pending" ∧ o.total_price = 2 * ((50 : Int) : ℚ)) ∧
      s'.order_items.filter (fun it => it.order_id == some exState.next_order_id)
          = [⟨exState.next_item_id, some exState.next_order_id, 1, 50,
              2 * ((50 : Int) : ℚ)⟩]) :=
  ⟨by constructor <;> simp [exState, exOrder],
   by decide, by decide, by decide,
   place_order_success exState "Arabica" 50 ⟨2024, 2, 1⟩
     ⟨1, "Arabica", "Brazil", "Medium", 2, 950⟩
     (by constructor <;> simp [exState, exOrder])
     (by decide) (by decide) (by decide)⟩

/-- Claim C2: when the requested quantity exceeds the stock, or the
stock is zero, the order is rejected with `OutOfStockError` and neither
the beans, the orders nor the order items table is written. -/
theorem place_order_rejected (s : DBState) (n : String) (q : Int)
    (today : OrderDate) (b : CoffeeBean)
    (hfind : s.beans.find? (fun x => x.name == n) = some b)
    (h : b.stock_quantity < q ∨ b.stock_quantity = 0) :
    (place_order s n q today).2 = some ServiceError.OutOfStockError ∧
    (place_order s n q today).1.beans = s.beans ∧
    (place_order s n q today).1.orders = s.orders ∧
    (place_order s n q today).1.order_items = s.order_items := by
  obtain ⟨hbeans, horders, hitems, hnb, hno, hni⟩ := ensure_user_exists_frame s
  unfold place_order
  by_cases h0 : b.stock_quantity ≤ 0
  · simp [hbeans, hfind, h0, horders, hitems]
  · have h1 : b.stock_quantity < q := by
      rcases h with h | h
      · exact h
      · omega
    simp [hbeans, hfind, h0, h1, horders, hitems]

/-- Witness for `place_order_rejected`: requesting 1000 g with only
950 g in stock. -/
theorem place_order_rejected_witness :
    exState.beans.find? (fun x => x.name == "Arabica")
        = some ⟨1, "Arabica", "Brazil", "Medium", 2, 950⟩ ∧
    ((950 : Int) < 1000 ∨ (950 : Int) = 0) ∧
    ((place_order exState "Arabica" 1000 ⟨2024, 2, 1⟩).2
        = some ServiceError.OutOfStockError ∧
      (place_order exState "Arabica" 1000 ⟨2024, 2, 1⟩).1.beans = exState.beans ∧
      (place_order exState "Arabica" 1000 ⟨2024, 2, 1⟩).1.orders = exState.orders ∧
      (place_order exState "Arabica" 1000 ⟨2024, 2, 1⟩).1.order_items
        = exState.order_items) :=
  ⟨by decide, by decide,
   place_order_rejected exState "Arabica" 1000 ⟨2024, 2, 1⟩
     ⟨1, "Arabica", "Brazil", "Medium", 2, 950⟩ (by decide) (by decide)⟩

/-- No bean's stock is negative. -/
def StockNonneg (s : DBState) : Prop := ∀ b ∈ s.beans, 0 ≤ b.stock_quantity

/-- Claim C6: every operation preserves non-negativity of every bean's
stock — bean creation (widget bound `stock ≥ 1`), bean update (widget
bound `new_stock ≥ 0`), order placement (guarded decrement), and the two
delete operations. -/
theorem stock_nonneg_preserved (s : DBState) (h : StockNonneg s) :
    (∀ (name origin roast : String) (price : ℚ) (stock : Int), 1 ≤ stock →
      StockNonneg (add_coffee_bean s name origin roast price stock)) ∧
    (∀ (selName newName newOrigin newRoast : String) (newPrice : ℚ)
        (newStock : Int), 0 ≤ newStock →
      StockNonneg (update_coffee_bean s selName newName newOrigin newRoast
        newPrice newStock)) ∧
    (∀ (selName : String) (q : Int) (today : OrderDate),
      StockNonneg (place_order s selName q today).1) ∧
    (∀ selName : String, StockNonneg (delete_coffee_bean s selName)) ∧
    (∀ oid : Nat, StockNonneg (delete_order s oid)) := by
  obtain ⟨hbeans, -, -, -, -, -⟩ := ensure_user_exists_frame s
  refine ⟨?_, ?_, ?_, ?_, ?_⟩
  · intro name origin roast price stock hstock b hb
    rcases List.mem_append.mp hb with h1 | h2
    · exact h b h1
    · simp only [List.mem_singleton] at h2
      subst h2
      show (0 : Int) ≤ stock
      omega
  · intro selName newName newOrigin newRoast newPrice newStock hns
    unfold update_coffee_bean
    cases hf : s.beans.find? (fun b => b.name == selName) with
    | none => exact h
    | some b0 =>
      intro b hb
      rcases mem_update_first hf hb with h1 | h1
      · exact h b h1
      · subst h1
        exact hns
  · intro selName q today
    cases hf : s.beans.find? (fun b => b.name == selName) with
    | none =>
      have he : (place_order s selName q today).1.beans = s.beans := by
        unfold place_order
        simp [hbeans, hf]
      intro b hb
      rw [he] at hb
      exact h b hb
    | some b0 =>
      by_cases h0 : b0.stock_quantity ≤ 0
      · have he : (place_order s selName q today).1.beans = s.beans := by
          unfold place_order
          simp [hbeans, hf, h0]
        intro b hb
        rw [he] at hb
        exact h b hb
      · by_cases h1 : b0.stock_quantity < q
        · have he : (place_order s selName q today).1.beans = s.beans := by
            unfold place_order
            simp [hbeans, hf, h0, h1]
          intro b hb
          rw [he] at hb
          exact h b hb
        · have he : (place_order s selName q today).1.beans
              = update_first (fun b => b.name == selName)
                  (fun b => { b with stock_quantity := b.stock_quantity - q })
                  s.beans := by
            unfold place_order
            simp [hbeans, hf, h0, h1]
          intro b hb
          rw [he] at hb
          rcases mem_update_first hf hb with h2 | h2
          · exact h b h2
          · subst h2
            have h3 := h b0 (List.mem_of_find?_eq_some hf)
            show (0 : Int) ≤ b0.stock_quantity - q
            omega
  · intro selName
    unfold delete_coffee_bean
    cases s.beans.find? (fun b => b.name == selName) with
    | none => exact h
    | some b0 =>
      intro b hb
      exact h b (mem_erase_first hb)
  · intro oid
    unfold delete_order
    cases s.orders.find? (fun o => o.order_id == oid) with
    | none => exact h
    | some o0 => exact h

/-- Witness for `stock_nonneg_preserved` at the concrete state. -/
theorem stock_nonneg_preserved_witness :
    StockNonneg exState ∧
    ((∀ (name origin roast : String) (price : ℚ) (stock : Int), 1 ≤ stock →
        StockNonneg (add_coffee_bean exState name origin roast price stock)) ∧
      (∀ (selName newName newOrigin newRoast : String) (newPrice : ℚ)
          (newStock : Int), 0 ≤ newStock →
        StockNonneg (update_coffee_bean exState selName newName newOrigin
          newRoast newPrice newStock)) ∧
      (∀ (selName : String) (q : Int) (today : OrderDate),
        StockNonneg (place_order exState selName q today).1) ∧
      (∀ selName : String, StockNonneg (delete_coffee_bean exState selName)) ∧
      (∀ oid : Nat, StockNonneg (delete_order exState oid))) :=
  ⟨by intro b hb; simp [exState] at hb; simp [hb],
   stock_nonneg_preserved exState
     (by intro b hb; simp [exState] at hb; simp [hb])⟩

/-- Claim C9: after `loadDemoData` on a freshly reset store, the total
revenue of `monthlySales` across all months equals the sum of
`total_price` over all orders (for any current date). -/
theorem demo_monthly_sales_total (s : DBState) (today : OrderDate) :
    ((monthlySales (load_demo_data_and_orders (reset_all_data s) today).orders).map
        (fun g => g.2.2)).sum
      = ((load_demo_data_and_orders (reset_all_data s) today).orders.map
          (fun o => o.total_price)).sum :=
  monthlySales_total_revenue _

/-- A state holding two beans that share the name "Arabica". -/
def exDupState : DBState :=
  { users := [⟨1, "Default User", "user@example.com"⟩],
    beans := [⟨1, "Arabica", "Brazil", "Medium", 2, 950⟩,
              ⟨2, "Arabica", "Peru", "Dark", 3, 500⟩],
    orders := [], order_items := [],
    next_bean_id := 3, next_order_id := 1, next_item_id := 1 }

/-- Claim C10: name-based resolution returns the matching bean with the
smallest id (the table scan is in rowid order); any bean with a larger
id — in particular a later duplicate of the same name — is never the one
updated, deleted, or referenced by a newly placed order. -/
theorem bean_resolution_first_match (s : DBState) (n : String) (b : CoffeeBean)
    (newName newOrigin newRoast : String) (newPrice : ℚ) (newStock : Int)
    (q : Int) (today : OrderDate)
    (hsort : s.beans.Pairwise (fun a c => a.bean_id < c.bean_id))
    (hfind : s.beans.find? (fun x => x.name == n) = some b) :
    (∀ b' ∈ s.beans, b'.name = n → b.bean_id ≤ b'.bean_id) ∧
    (∀ b' ∈ s.beans, b.bean_id < b'.bean_id →
      b' ∈ (update_coffee_bean s n newName newOrigin newRoast newPrice
              newStock).beans ∧
      b' ∈ (delete_coffee_bean s n).beans ∧
      b' ∈ (place_order s n q today).1.beans) ∧
    (∀ it ∈ (place_order s n q today).1.order_items,
      it ∈ s.order_items ∨ it.bean_id = b.bean_id) := by
  obtain ⟨hbeans, horders, hitems, hnb, hno, hni⟩ := ensure_user_exists_frame s
  refine ⟨?_, ?_, ?_⟩
  · intro b' hb' hname
    obtain ⟨l1, l2, hl, hl1, -⟩ := update_first_decomp id hfind
    have hpb' : (b'.name == n) = true := by simp [hname]
    rw [hl] at hb' hsort
    rcases List.mem_append.mp hb' with h1 | h2
    · rw [hl1 b' h1] at hpb'
      exact absurd hpb' (by simp)
    · rcases List.mem_cons.mp h2 with rfl | h3
      · exact le_refl _
      · have hp := (List.pairwise_append.mp hsort).2.1
        exact le_of_lt ((List.pairwise_cons.mp hp).1 b' h3)
  · intro b' hb' hlt
    have hne : b' ≠ b := by
      intro he
      rw [he] at hlt
      omega
    refine ⟨?_, ?_, ?_⟩
    · unfold update_coffee_bean
      rw [hfind]
      exact mem_update_first_of_ne hfind hb' hne
    · unfold delete_coffee_bean
      rw [hfind]
      exact mem_erase_first_of_ne hfind hb' hne
    · by_cases h0 : b.stock_quantity ≤ 0
      · have he : (place_order s n q today).1.beans = s.beans := by
          unfold place_order
          simp [hbeans, hfind, h0]
        rw [he]
        exact hb'
      · by_cases h1 : b.stock_quantity < q
        · have he : (place_order s n q today).1.beans = s.beans := by
            unfold place_order
            simp [hbeans, hfind, h0, h1]
          rw [he]
          exact hb'
        · have he : (place_order s n q today).1.beans
              = update_first (fun x => x.name == n)
                  (fun x => { x with stock_quantity := x.stock_quantity - q })
                  s.beans := by
            unfold place_order
            simp [hbeans, hfind, h0, h1]
          rw [he]
          exact mem_update_first_of_ne hfind hb' hne
  · intro it hit
    by_cases h0 : b.stock_quantity ≤ 0
    · have he : (place_order s n q today).1.order_items = s.order_items := by
        unfold place_order
        simp [hbeans, hitems, hfind, h0]
      rw [he] at hit
      exact Or.inl hit
    · by_cases h1 : b.stock_quantity < q
      · have he : (place_order s n q today).1.order_items = s.order_items := by
          unfold place_order
          simp [hbeans, hitems, hfind, h0, h1]
        rw [he] at hit
        exact Or.inl hit
      · have he : (place_order s n q today).1.order_items
            = s.order_items ++ [⟨s.next_item_id, some s.next_order_id, b.bean_id,
                q, b.price_per_gram * (q : ℚ)⟩] := by
          unfold place_order
          simp [hbeans, hitems, hfind, h0, h1, hni, hno]
        rw [he] at hit
        rcases List.mem_append.mp hit with h2 | h2
        · exact Or.inl h2
        · simp only [List.mem_singleton] at h2
          subst h2
          exact Or.inr rfl

/-- Witness for `bean_resolution_first_match` on the duplicate-name
state: both beans are called "Arabica"; bean 1 is resolved and bean 2 is
untouched by update, delete and ordering. -/
theorem bean_resolution_first_match_witness :
    exDupState.beans.Pairwise (fun a c => a.bean_id < c.bean_id) ∧
    exDupState.beans.find? (fun x => x.name == "Arabica")
        = some ⟨1, "Arabica", "Brazil", "Medium", 2, 950⟩ ∧
    ((∀ b' ∈ exDupState.beans, b'.name = "Arabica" →
        (1 : Nat) ≤ b'.bean_id) ∧
      (∀ b' ∈ exDupState.beans, (1 : Nat) < b'.bean_id →
        b' ∈ (update_coffee_bean exDupState "Arabica" "Arabica" "Kenya" "Light"
                4 100).beans ∧
        b' ∈ (delete_coffee_bean exDupState "Arabica").beans ∧
        b' ∈ (place_order exDupState "Arabica" 10 ⟨2024, 5, 1⟩).1.beans) ∧
      (∀ it ∈ (place_order exDupState "Arabica" 10 ⟨2024, 5, 1⟩).1.order_items,
        it ∈ exDupState.order_items ∨ it.bean_id = 1)) :=
  ⟨by decide, by decide,
   bean_resolution_first_match exDupState "Arabica"
     ⟨1, "Arabica", "Brazil", "Medium", 2, 950⟩ "Arabica" "Kenya" "Light" 4 100
     10 ⟨2024, 5, 1⟩ (by decide) (by decide)⟩

end Caffeinated
